import Mathlib

/-!
Verification development for the mbox_processor repository.

The Python sources under `src/mbox_processor/` are shallowly embedded below:
pure string manipulation is modelled char-by-char over `List Char`, the file
system is modelled as a `Finset String` of existing paths, datetimes as a
year/month/day record, random draws and charset decoders as explicit
parameters, and exceptions as `Except`.
-/

namespace Mbox

/-- ASCII lower-casing of one character, as Python `str.lower` acts on ASCII. -/
def lowerCh (c : Char) : Char :=
  if 'A' ≤ c ∧ c ≤ 'Z' then Char.ofNat (c.toNat + 32) else c

/-- Lower-case a character list. -/
def lowerL (l : List Char) : List Char := l.map lowerCh

/-- Python `str.isalnum` restricted to ASCII letters and digits. -/
def isAlnumCh (c : Char) : Bool :=
  ('0' ≤ c && c ≤ '9') || ('a' ≤ c && c ≤ 'z') || ('A' ≤ c && c ≤ 'Z')

/-- Python `str.replace(a, b)` for single characters. -/
def replCh (a b : Char) (l : List Char) : List Char :=
  l.map fun c => if c = a then b else c

/-- Python `str.split(sep)` for a single-character separator: always returns a
non-empty list of fields. -/
def splitCh (sep : Char) : List Char → List (List Char)
  | [] => [[]]
  | c :: rest =>
    match splitCh sep rest with
    | [] => [[]]
    | h :: t => if c = sep then [] :: h :: t else (c :: h) :: t

/-- Decimal digit character for values below 10. -/
def decDigitCh (d : Nat) : Char :=
  match d with
  | 0 => '0' | 1 => '1' | 2 => '2' | 3 => '3' | 4 => '4'
  | 5 => '5' | 6 => '6' | 7 => '7' | 8 => '8' | 9 => '9'
  | _ => '*'

/-- Fuelled decimal rendering of a natural number (most significant digit
first); with fuel above the argument it renders all digits. -/
def decCharsAux : Nat → Nat → List Char
  | 0, _ => []
  | fuel + 1, n =>
    if n < 10 then [decDigitCh n]
    else decCharsAux fuel (n / 10) ++ [decDigitCh (n % 10)]

/-- Decimal digit string of a natural number, as Python `str(n)` for `n ≥ 0`. -/
def decChars (n : Nat) : List Char := decCharsAux (n + 1) n

/-- Decimal rendering as a `String`. -/
def decStr (n : Nat) : String := ⟨decChars n⟩

/-- Python `str.rsplit('.', 1)` when it actually splits: returns the part
before the last dot and the part after it, or `none` when no dot occurs. -/
def rsplitDotL : List Char → Option (List Char × List Char)
  | [] => none
  | c :: rest =>
    match rsplitDotL rest with
    | some (a, b) => some (c :: a, b)
    | none => if c = '.' then some ([], rest) else none

/-- Python `pathlib.PurePath(s).suffix` on the character list of `s`:
the dotted extension of the final path component, empty when the last dot is
leading, trailing, or absent. -/
def pySuffixL (l : List Char) : List Char :=
  let name := (splitCh '/' l).getLastD []
  match rsplitDotL name with
  | none => []
  | some (stem, ext) => if stem = [] ∨ ext = [] then [] else '.' :: ext

/-- Scan for the first `>` and return the characters before it, `none` when no
`>` occurs. -/
def takeUntilGtL : List Char → Option (List Char)
  | [] => none
  | c :: rest => if c = '>' then some [] else (takeUntilGtL rest).map (c :: ·)

/-- Python `re.search(r'<([^>]+)>', s)`: the content of the first
angle-bracket pair enclosing at least one non-`>` character. -/
def angleSearchL : List Char → Option (List Char)
  | [] => none
  | c :: rest =>
    if c = '<' then
      match takeUntilGtL rest with
      | some (d :: ds) => some (d :: ds)
      | _ => angleSearchL rest
    else angleSearchL rest

/-- Date record standing in for the `datetime` values the processor handles;
`strftime('%Y-%m-%d')` only reads these three fields. -/
structure PyDate where
  year : Nat
  month : Nat
  day : Nat
deriving DecidableEq, Repr

/-- Zero-padded two-digit rendering, as `strftime` `%m` / `%d`. -/
def pad2 (n : Nat) : List Char := if n < 10 then '0' :: decChars n else decChars n

/-- Zero-padded four-digit rendering, as `strftime` `%Y`. -/
def pad4 (n : Nat) : List Char :=
  if n < 10 then '0' :: '0' :: '0' :: decChars n
  else if n < 100 then '0' :: '0' :: decChars n
  else if n < 1000 then '0' :: decChars n
  else decChars n

/-- Python `date.strftime('%Y-%m-%d')`. -/
def fmtDate (d : PyDate) : String :=
  ⟨pad4 d.year ++ '-' :: pad2 d.month ++ '-' :: pad2 d.day⟩

/-- Embedding of `models/attachment.py`, class `Attachment`: the declared
metadata plus the mutable context fields set during processing. The raw
payload is a byte list. -/
structure Attachment where
  content_id : String
  filename : String
  content_type : String
  content_disposition : String
  payload : List Nat
  size : Nat
  saved_path : Option String := none
  message_id : Option String := none
  email_date : Option PyDate := none
  sender_email : Option String := none
deriving DecidableEq, Repr

/-- Embedding of `Attachment.extension`: the lower-cased `pathlib` suffix of
the declared filename, empty when the filename is empty or has no suffix. -/
def Attachment.extension (a : Attachment) : String :=
  if a.filename = "" then "" else ⟨lowerL (pySuffixL a.filename.data)⟩

/-- Embedding of `Attachment.has_extension`: the declared filename splits at a
last dot and the lower-cased part after it is 1-10 alphanumeric characters. -/
def Attachment.has_extension (a : Attachment) : Bool :=
  if a.filename = "" then false
  else
    match rsplitDotL a.filename.data with
    | none => false
    | some (_, extRaw) =>
      let ext := lowerL extRaw
      decide (1 ≤ ext.length) && decide (ext.length ≤ 10) && ext.all isAlnumCh

/-- Embedding of the sender sanitisation inside `Attachment.safe_filename`:
extract a bracketed address if present, keep the local part with `.`/`+`
replaced by `_` and lower-cased, then append `_domain` (dots replaced, split
at `>`, not lower-cased) when an `@` is present. -/
def sanitizeSenderL (senderRaw : List Char) : List Char :=
  let sender := (angleSearchL senderRaw).getD senderRaw
  let localPart := (splitCh '@' sender).headD []
  let safe0 := lowerL (replCh '+' '_' (replCh '.' '_' localPart))
  if sender.contains '@' then
    let domain := (splitCh '@' sender).getD 1 []
    let domain0 := (splitCh '>' domain).headD []
    safe0 ++ '_' :: replCh '.' '_' domain0
  else safe0

/-- Embedding of the extension normalisation in `safe_filename`: the
extension as-is when it starts with a dot, otherwise with a dot prepended
(so an empty extension contributes a bare dot). -/
def extWithDotL (a : Attachment) : List Char :=
  let e := (Attachment.extension a).data
  match e with
  | '.' :: _ => e
  | _ => '.' :: e

/-- Body of `Attachment.safe_filename` once the preconditions hold: date,
sanitised sender, the drawn 5-digit random number `r`, and the normalised
extension. -/
def safe_filename_core (d : PyDate) (sender : String) (a : Attachment) (r : Nat) : String :=
  ⟨(fmtDate d).data ++ '_' :: sanitizeSenderL sender.data ++ '_' :: decChars r ++ extWithDotL a⟩

/-- Embedding of the `Attachment.safe_filename` property: `ValueError` (as
`Except.error`) when `email_date` or `sender_email` is unset (Python-falsy),
otherwise the derived file name. The random draw is the parameter `r`. -/
def Attachment.safe_filenameE (a : Attachment) (r : Nat) : Except String String :=
  match a.email_date, a.sender_email with
  | some d, some s =>
    if s = "" then .error "email_date and sender_email must be set"
    else .ok (safe_filename_core d s a r)
  | _, _ => .error "email_date and sender_email must be set"

/-- Path concatenation `dir / name`. -/
def pathJoin (dir name : String) : String := ⟨dir.data ++ '/' :: name.data⟩

/-- One collision rename in `Attachment.save`: counter `k` inserted before
the extension when the name splits at a dot, appended otherwise. -/
def collideName (filename : String) (k : Nat) : String :=
  match rsplitDotL filename.data with
  | some (stem, ext) => ⟨stem ++ '_' :: decChars k ++ '.' :: ext⟩
  | none => ⟨filename.data ++ '_' :: decChars k⟩

/-- Candidate tried at iteration `k` of the collision probe loop: the plain
name first, then the renamed forms with counters 1, 2, .... -/
def candidateName (filename : String) : Nat → String
  | 0 => filename
  | k + 1 => collideName filename (k + 1)

/-- Embedding of the `while filepath.exists()` probe loop of
`Attachment.save`, with explicit fuel: starting at candidate `k`, return the
first candidate whose full path is not an existing file. -/
def probeFrom (fs : Finset String) (dir filename : String) : Nat → Nat → Option String
  | _, 0 => none
  | k, fuel + 1 =>
    let cur := candidateName filename k
    if pathJoin dir cur ∈ fs then probeFrom fs dir filename (k + 1) fuel
    else some cur

/-- The probe loop as run by `Attachment.save`: fuel one more than the number
of existing files always suffices (proved below). -/
def probeSave (fs : Finset String) (dir filename : String) : Option String :=
  probeFrom fs dir filename 0 (fs.card + 1)

/-- Embedding of `Attachment.save`: precondition check, derived name, probe
loop, write (modelled by returning the chosen fresh path). `fs` is the set of
paths that exist on disk before the call. -/
def Attachment.saveE (a : Attachment) (save_dir : String) (fs : Finset String) (r : Nat) :
    Except String String :=
  match a.safe_filenameE r with
  | .error e => .error e
  | .ok filename =>
    match probeSave fs save_dir filename with
    | some name => .ok (pathJoin save_dir name)
    | none => .error "probe fuel exhausted"

/-- Sequential run of saves, one `(directory, derived-name)` pair per
attachment: each written path is added to the set of existing files before
the next save probes, exactly as a single-threaded run of the pipeline. -/
def runSaves : List (String × String) → Finset String → Finset String × List String
  | [], fs => (fs, [])
  | (dir, fn) :: rest, fs =>
    match probeSave fs dir fn with
    | some name =>
      let p := pathJoin dir name
      let next := runSaves rest (insert p fs)
      (next.1, p :: next.2)
    | none => runSaves rest fs

/-- Configuration error taxonomy of `config.py` (`FileNotFoundError` /
`ValueError`). -/
inductive CfgError
  | fileNotFound
  | valueError
deriving DecidableEq, Repr

/-- Embedding of `config.py`, class `Config`: existence of the input file is
the only file-system fact `validate` consults, so it is carried as a flag. -/
structure ConfigM where
  input_exists : Bool
  max_messages : Int
deriving DecidableEq, Repr

/-- Embedding of `Config.__init__`'s ceiling normalisation
`max(0, int(max_messages)) if max_messages else 0` (`none` models `None`,
and `0` is Python-falsy). -/
def mkConfig (input_exists : Bool) (max_messages : Option Int) : ConfigM :=
  { input_exists
    max_messages :=
      match max_messages with
      | none => 0
      | some v => if v = 0 then 0 else max 0 v }

/-- Embedding of `Config.validate`. -/
def ConfigM.validateE (c : ConfigM) : Except CfgError Unit :=
  if ¬ c.input_exists then .error .fileNotFound
  else if c.max_messages < 0 then .error .valueError
  else .ok ()

/-- Embedding of `processors/content_processor.py`: the MIME part tree a
parsed message exposes. A leaf carries declared type, disposition, filename
and charset plus its decoded payload bytes (`get_payload(decode=True)`,
`none` when absent). -/
inductive Part where
  | leaf (content_type : String) (disposition : Option String)
      (filename : Option String) (charset : Option String)
      (payload : Option (List Nat))
  | multipart (parts : List Part)

/-- Attachment dictionary appended by `_extract_content`. -/
structure AttRec where
  filename : String
  content_type : String
  content_disposition : String
  payload : List Nat
  size : Nat
deriving DecidableEq, Repr

/-- The three accumulator lists threaded through `_extract_content`
(`text_parts`, `html_parts`, `attachments`). -/
structure Acc where
  text_parts : List String
  html_parts : List String
  attachments : List AttRec
deriving DecidableEq, Repr

/-- Python truthiness of an optional string: `None` and `""` are falsy. -/
def truthyS : Option String → Bool
  | none => false
  | some s => s != ""

/-- ASCII lower-casing of a whole string. -/
def pyLowerS (s : String) : String := ⟨lowerL s.data⟩

/-- Leaf handling inside `_extract_content`, lines 97-134: capture as an
attachment when the disposition is `attachment`/`inline` and the payload is
non-empty (synthesising `attachment_N` from the running attachment count when
no filename is declared), otherwise decode and route text by declared type.
The charset decoder `dec` is the external codec collaborator. -/
def leafStep (dec : String → List Nat → String) (ct : String) (disp : Option String)
    (fn : Option String) (cs : Option String) (pl : Option (List Nat)) (acc : Acc) : Acc :=
  let textRoute : Acc :=
    match pl with
    | some (b :: bs) =>
      let charset := match cs with | some c => if c = "" then "utf-8" else c | none => "utf-8"
      let content := dec charset (b :: bs)
      if ct = "text/plain" then { acc with text_parts := acc.text_parts ++ [content] }
      else if ct = "text/html" then { acc with html_parts := acc.html_parts ++ [content] }
      else acc
    | _ => acc
  match disp with
  | some dv =>
    if pyLowerS dv = "attachment" ∨ pyLowerS dv = "inline" then
      let name :=
        if truthyS fn then fn.getD ""
        else "attachment_" ++ decStr (acc.attachments.length + 1)
      match pl with
      | some (b :: bs) =>
        { acc with attachments := acc.attachments ++
            [{ filename := name, content_type := ct, content_disposition := dv,
               payload := b :: bs, size := (b :: bs).length }] }
      | _ => acc
    else textRoute
  | none => textRoute

mutual

/-- Accumulator-passing recursion of `_extract_content`: a multipart node
recurses into each child in order, a leaf runs `leafStep`. -/
def extractPart (dec : String → List Nat → String) : Part → Acc → Acc
  | .leaf ct disp fn cs pl, acc => leafStep dec ct disp fn cs pl acc
  | .multipart ps, acc => extractParts dec ps acc

/-- Left-to-right recursion over a multipart node's children. -/
def extractParts (dec : String → List Nat → String) : List Part → Acc → Acc
  | [], acc => acc
  | p :: rest, acc => extractParts dec rest (extractPart dec p acc)

end

/-- Python `sep.join(parts)` over the character lists. -/
def joinSep (sep : List Char) : List String → List Char
  | [] => []
  | [s] => s.data
  | s :: rest => s.data ++ sep ++ joinSep sep rest

/-- Embedding of the outermost `_extract_content(msg)` call: a multipart root
joins the accumulated text and markup parts; any other root runs the leaf
code, whose return statements yield `(None, None, attachments)` regardless of
the text accumulated. -/
def extract_content (dec : String → List Nat → String) (m : Part) :
    Option String × Option String × List AttRec :=
  match m with
  | .multipart ps =>
    let acc := extractParts dec ps ⟨[], [], []⟩
    (if acc.text_parts = [] then none else some ⟨joinSep ['\n', '\n'] acc.text_parts⟩,
     if acc.html_parts = [] then none else some ⟨joinSep ['\n'] acc.html_parts⟩,
     acc.attachments)
  | .leaf ct disp fn cs pl =>
    let acc := leafStep dec ct disp fn cs pl ⟨[], [], []⟩
    (none, none, acc.attachments)

/-- Content fields of the dictionary `process_message` returns. -/
structure PMResult where
  text_content : Option String
  html_content : Option String
  attachments : List AttRec
deriving DecidableEq, Repr

/-- Embedding of `ContentProcessor.process_message`, lines 43-64: extraction,
HTML-to-text fallback (`h2t` models the BeautifulSoup collaborator), and the
`"[No content]"` placeholder when neither text nor markup is truthy. -/
def process_message (dec : String → List Nat → String) (h2t : String → String)
    (keep_html : Bool) (m : Part) : PMResult :=
  let r := extract_content dec m
  let t0 := r.1
  let h := r.2.1
  let t1 := if ¬ truthyS t0 ∧ truthyS h then some (h2t (h.getD "")) else t0
  let t2 := if ¬ truthyS t1 ∧ ¬ truthyS h then some "[No content]" else t1
  { text_content := t2, html_content := if keep_html then h else none, attachments := r.2.2 }

mutual

/-- Declared-name skeleton of the attachments a part tree yields, in
traversal order: one entry per leaf that `_extract_content` captures
(disposition `attachment`/`inline`, non-empty payload), holding its declared
filename when truthy. Stated from the spec's description of attachment
capture, for comparison with the extractor. -/
def specCollectNames : Part → List (Option String)
  | .leaf _ disp fn _ pl =>
    (match disp with
     | some dv =>
       if pyLowerS dv = "attachment" ∨ pyLowerS dv = "inline" then
         match pl with
         | some (_ :: _) => [if truthyS fn then some (fn.getD "") else none]
         | _ => []
       else []
     | none => [])
  | .multipart ps => specCollectNamesList ps

/-- List version of `specCollectNames`, in document order. -/
def specCollectNamesList : List Part → List (Option String)
  | [] => []
  | p :: rest => specCollectNames p ++ specCollectNamesList rest

end

/-- Names the spec assigns to captured attachments: the declared name when
present, otherwise `attachment_{k}` where `k` counts captured attachments of
the message from `ofs + 1` on. -/
def specAssignNames : List (Option String) → Nat → List String
  | [], _ => []
  | o :: rest, ofs =>
    (match o with
     | some f => f
     | none => "attachment_" ++ decStr (ofs + 1)) :: specAssignNames rest (ofs + 1)

/-- Embedding of `processors/attachment_handler.py`, `AttachmentHandler`
construction state: base directory and the two post-processing flags. -/
structure HandlerCfg where
  base_dir : String
  post_process : Bool
  keep_temp : Bool
deriving DecidableEq, Repr

/-- Message fields `save_attachments` reads. -/
structure EmailMsg where
  message_id : String
  from_addr : String
  date : PyDate
  attachments : List Attachment
deriving DecidableEq, Repr

/-- Embedding of `AttachmentHandler.get_attachment_dir`: bracketed address if
present, `@`/`.`/`+` replaced by `_`, lower-cased, under the base directory. -/
def get_attachment_dir (h : HandlerCfg) (sender_email : String) : String :=
  let sender := (angleSearchL sender_email.data).getD sender_email.data
  let safe := lowerL (replCh '+' '_' (replCh '.' '_' (replCh '@' '_' sender)))
  pathJoin h.base_dir ⟨safe⟩

/-- Per-attachment loop of `AttachmentHandler.save_attachments`: set message
context, compute the sender directory, save, collect the path; a save error
is caught and the loop continues. `rands i` is the random draw of the i-th
save; the written path joins the set of existing files. -/
def saveLoop (h : HandlerCfg) (m : EmailMsg) (rands : Nat → Nat) :
    List Attachment → Nat → Finset String → Finset String × List String
  | [], _, fs => (fs, [])
  | a :: rest, i, fs =>
    let a' := { a with message_id := some m.message_id, email_date := some m.date,
                       sender_email := some m.from_addr }
    let dir := get_attachment_dir h (a'.sender_email.getD "")
    match a'.saveE dir fs (rands i) with
    | .ok p =>
      let next := saveLoop h m rands rest (i + 1) (insert p fs)
      (next.1, p :: next.2)
    | .error _ => saveLoop h m rands rest (i + 1) fs

/-- Embedding of `AttachmentHandler.save_attachments`: final file set and the
list of saved paths in order. -/
def save_attachments (h : HandlerCfg) (m : EmailMsg) (fs : Finset String)
    (rands : Nat → Nat) : Finset String × List String :=
  saveLoop h m rands m.attachments 0 fs

/-- Fatal error taxonomy of `MboxProcessor.process` (container open failure,
message processing failure). -/
inductive PErr
  | ioError
  | decodeError
deriving DecidableEq, Repr

/-- Embedding of the statistics dictionary built by
`MboxProcessor._init_stats`; dictionaries keyed by strings become
association lists, times become `Nat` instants. -/
structure Stats where
  total_messages : Nat
  processed_messages : Nat
  failed_messages : Nat
  total_attachments : Nat
  saved_attachments : Nat
  post_processed : Nat
  attachments_by_type : List (String × Nat)
  senders : List (String × Nat)
  start_time : Nat
  end_time : Option Nat
  duration_seconds : Option Nat
  attachments_size_bytes : Nat
  messages_with_attachments : Nat
  messages_processed_per_second : Nat
deriving DecidableEq, Repr

/-- Embedding of `MboxProcessor._init_stats`. -/
def initStats (t0 : Nat) : Stats :=
  { total_messages := 0, processed_messages := 0, failed_messages := 0,
    total_attachments := 0, saved_attachments := 0, post_processed := 0,
    attachments_by_type := [], senders := [], start_time := t0,
    end_time := none, duration_seconds := none, attachments_size_bytes := 0,
    messages_with_attachments := 0, messages_processed_per_second := 0 }

/-- Python `d[k] = d.get(k, 0) + 1` on an association list. -/
def bumpKey : List (String × Nat) → String → List (String × Nat)
  | [], k => [(k, 1)]
  | (a, n) :: t, k => if a = k then (a, n + 1) :: t else (a, n) :: bumpKey t k

/-- What one successfully processed message contributes to the loop: its
`From` header value and the saved attachment paths `_process_message`
returned. -/
structure MsgData where
  from_addr : String
  saved_paths : List String
deriving DecidableEq, Repr

/-- Per-saved-attachment statistics update (lines 169-178 of
`mbox_processor.py`): bump the count of the lower-cased path suffix and add
the on-disk size; `sz` models `Path.stat` and `none` its `OSError` branch. -/
def attStep (sz : String → Option Nat) (s : Stats) (p : String) : Stats :=
  let ext : String := ⟨lowerL (pySuffixL p.data)⟩
  { s with attachments_by_type := bumpKey s.attachments_by_type ext,
           attachments_size_bytes := s.attachments_size_bytes + (sz p).getD 0 }

/-- Statistics updates for one successfully processed message (lines
157-178): processed count, sender tally, and the attachment block when any
path was saved. -/
def okStep (sz : String → Option Nat) (s : Stats) (d : MsgData) : Stats :=
  let s1 := { s with processed_messages := s.processed_messages + 1 }
  let s2 := { s1 with senders := bumpKey s1.senders d.from_addr }
  if d.saved_paths = [] then s2
  else
    let s3 := { s2 with
      messages_with_attachments := s2.messages_with_attachments + 1,
      saved_attachments := s2.saved_attachments + d.saved_paths.length }
    d.saved_paths.foldl (attStep sz) s3

/-- One iteration of the message loop: the `except` arm (lines 193-196)
bumps the failure counter, the normal arm applies `okStep`. -/
def stepMsg (sz : String → Option Nat) (s : Stats) (m : Except PErr MsgData) : Stats :=
  match m with
  | .error _ => { s with failed_messages := s.failed_messages + 1 }
  | .ok d => okStep sz s d

/-- Embedding of the `for i, message in enumerate(mbox)` loop (lines
149-196), including the early `break` when a positive ceiling is reached
(`max_messages` of 0 means unlimited). -/
def procLoop (maxM : Nat) (sz : String → Option Nat) :
    List (Except PErr MsgData) → Nat → Stats → Stats
  | [], _, s => s
  | m :: rest, i, s =>
    if maxM ≠ 0 ∧ maxM ≤ i then s
    else procLoop maxM sz rest (i + 1) (stepMsg sz s m)

/-- Embedding of the `finally` block's statistics finalisation (lines
203-220): end time, duration, throughput, and the post-processed count when
deferred detection is enabled (`ppCount` models the size of the mapping
`post_process_attachments` returns). -/
def finalizeStats (s : Stats) (postP : Bool) (ppCount : Nat) (t1 : Nat) : Stats :=
  let s1 := { s with end_time := some t1, duration_seconds := some (t1 - s.start_time) }
  let s2 := if t1 - s1.start_time ≠ 0 then
      { s1 with messages_processed_per_second := s1.processed_messages / (t1 - s1.start_time) }
    else s1
  if postP then { s2 with post_processed := ppCount } else s2

/-- Python semantics of `try: body  except: raise  finally: fin; return v`:
the finally suite always runs, and because it ends in a `return`, any
in-flight exception (re-raised by the except arm or not) is discarded and the
function returns normally (Python language reference, compound statements:
"If the finally clause executes a return, break or continue statement, the
saved exception is discarded"). -/
def pyTryFinallyReturn {E A B : Type} (body : Except E A) (onRaise : A) (fin : A → B) :
    Except E B :=
  .ok (fin (match body with | .ok a => a | .error _ => onRaise))

/-- Embedding of `MboxProcessor.process`: `openResult` models
`mailbox.mbox(input_file)` delivering the message records or raising; a
raised open error reaches the `finally` block with statistics still at their
initial values (the total is only set after a successful open). -/
def processRun (openResult : Except PErr (List (Except PErr MsgData))) (maxM : Nat)
    (postP : Bool) (ppCount : Nat) (sz : String → Option Nat) (t0 t1 : Nat) :
    Except PErr Stats :=
  let s0 := initStats t0
  pyTryFinallyReturn
    (match openResult with
     | .error e => .error e
     | .ok msgs => .ok (procLoop maxM sz msgs 0 { s0 with total_messages := msgs.length }))
    s0
    (fun s => finalizeStats s postP ppCount t1)

/-- Exit code of `cli.main` after configuration validation (lines 109-127):
0 when `process` returns, 1 when an exception escapes it. -/
def mainExit (r : Except PErr Stats) : Nat :=
  match r with
  | .ok _ => 0
  | .error _ => 1

/-- Exit code of `cli.main` including the validation step (lines 94-107). -/
def cliExit (c : ConfigM) (r : Except PErr Stats) : Nat :=
  match c.validateE with
  | .error _ => 1
  | .ok _ => mainExit r

/-- Numeric value of a decimal digit character (inverse of `decDigitCh`). -/
def chval (c : Char) : Nat := c.toNat - 48

/-- Latin-1 style decoder used as a concrete charset collaborator in
evaluations: each byte becomes the character of its code point. -/
def asciiDec : String → List Nat → String :=
  fun _ bs => ⟨bs.map fun b => Char.ofNat b⟩

/-- Concrete attachment with message context set but `message_id` unset. -/
def janeAtt : Attachment :=
  { content_id := "", filename := "report.pdf", content_type := "application/pdf",
    content_disposition := "attachment", payload := [1], size := 1,
    message_id := none, email_date := some ⟨2024, 3, 1⟩,
    sender_email := some "jane@example.com" }

/-- Concrete attachment whose declared filename `data` has no extension. -/
def extLessAtt : Attachment :=
  { content_id := "", filename := "data", content_type := "application/octet-stream",
    content_disposition := "attachment", payload := [1, 2, 3], size := 3 }

/-- Concrete message carrying only the extension-less attachment. -/
def extLessMsg : EmailMsg :=
  { message_id := "mid-1", from_addr := "jane@example.com", date := ⟨2024, 3, 1⟩,
    attachments := [extLessAtt] }

/-- Concrete attachment with message context set and a suffix-less declared
filename. -/
def readmeAtt : Attachment := { janeAtt with filename := "README" }

/-- Concrete single-leaf `text/plain` message body with payload `hello` and
no content disposition. -/
def plainLeaf : Part :=
  Part.leaf "text/plain" none none (some "utf-8") (some [104, 101, 108, 108, 111])

/-- Digit characters decode back to their value. -/
theorem chval_decDigitCh {d : Nat} (h : d < 10) : chval (decDigitCh d) = d := by
  interval_cases d <;> rfl

/-- Horner evaluation of the rendered digits recovers the number: `decChars`
has a left inverse. -/
theorem decCharsAux_foldl :
    ∀ f n, n < f → (decCharsAux f n).foldl (fun a c => a * 10 + chval c) 0 = n := by
  intro f
  induction f with
  | zero => intro n h; omega
  | succ f ih =>
    intro n h
    by_cases h10 : n < 10
    · simp [decCharsAux, h10, chval_decDigitCh h10]
    · have hdiv : n / 10 < n := Nat.div_lt_self (by omega) (by omega)
      have hd : n / 10 < f := by omega
      rw [decCharsAux]
      simp only [h10, if_false, List.foldl_append, ih _ hd]
      simp [chval_decDigitCh (Nat.mod_lt n (by omega))]
      omega

/-- Decimal rendering is injective. -/
theorem decChars_inj {a b : Nat} (h : decChars a = decChars b) : a = b := by
  have ha := decCharsAux_foldl (a + 1) a (by omega)
  have hb := decCharsAux_foldl (b + 1) b (by omega)
  simp only [decChars] at h
  rw [h] at ha
  omega

/-- Decimal rendering is never empty. -/
theorem decChars_ne_nil (n : Nat) : decChars n ≠ [] := by
  rw [decChars, decCharsAux]
  by_cases h : n < 10 <;> simp [h]

/-- Soundness of `rsplitDotL`: a successful split reassembles to the input
around a dot. -/
theorem rsplitDotL_eq : ∀ {l a b : List Char}, rsplitDotL l = some (a, b) → l = a ++ '.' :: b := by
  intro l
  induction l with
  | nil => intro a b h; simp [rsplitDotL] at h
  | cons c rest ih =>
    intro a b h
    rw [rsplitDotL] at h
    cases hr : rsplitDotL rest with
    | some p =>
      obtain ⟨a', b'⟩ := p
      rw [hr] at h
      simp only [Option.some.injEq, Prod.mk.injEq] at h
      obtain ⟨ha, hb⟩ := h
      subst ha; subst hb
      simp [ih hr]
    | none =>
      rw [hr] at h
      by_cases hc : c = '.'
      · simp only [hc, if_true, Option.some.injEq, Prod.mk.injEq] at h
        obtain ⟨ha, hb⟩ := h
        subst ha; subst hb
        simp [hc]
      · simp [hc] at h

/-- Distinct probe counters yield distinct candidate names. -/
theorem candidateName_inj (fn : String) :
    ∀ {j k : Nat}, candidateName fn j = candidateName fn k → j = k := by
  have hcol : ∀ j k : Nat, collideName fn j = collideName fn k → j = k := by
    intro j k h
    have hd := congrArg String.data h
    cases hsp : rsplitDotL fn.data with
    | none =>
      simp only [collideName, hsp] at hd
      have h2 := List.append_cancel_left hd
      simp only [List.cons.injEq, true_and] at h2
      exact decChars_inj h2
    | some p =>
      obtain ⟨st, ex⟩ := p
      simp only [collideName, hsp] at hd
      have h2 := List.append_cancel_right hd
      have h3 := List.append_cancel_left h2
      simp only [List.cons.injEq, true_and] at h3
      exact decChars_inj h3
  have hne : ∀ k : Nat, fn ≠ collideName fn (k + 1) := by
    intro k h
    have hd := congrArg String.data h
    have hdl := decChars_ne_nil (k + 1)
    have hdpos : 0 < (decChars (k + 1)).length := List.length_pos.mpr hdl
    cases hsp : rsplitDotL fn.data with
    | none =>
      simp only [collideName, hsp] at hd
      have hlen := congrArg List.length hd
      simp only [List.length_append, List.length_cons] at hlen
      omega
    | some p =>
      obtain ⟨st, ex⟩ := p
      have hfe := rsplitDotL_eq hsp
      simp only [collideName, hsp] at hd
      rw [hfe] at hd
      have hlen := congrArg List.length hd
      simp only [List.length_append, List.length_cons] at hlen
      omega
  intro j k h
  match j, k with
  | 0, 0 => rfl
  | 0, k + 1 => exact absurd h (hne k)
  | j + 1, 0 => exact absurd h.symm (hne j)
  | j + 1, k + 1 => exact hcol (j + 1) (k + 1) h

/-- Joining distinct names under the same directory keeps them distinct. -/
theorem pathJoin_inj {dir a b : String} (h : pathJoin dir a = pathJoin dir b) : a = b := by
  have hd := congrArg String.data h
  simp only [pathJoin] at hd
  have h2 := List.append_cancel_left hd
  simp only [List.cons.injEq, true_and] at h2
  obtain ⟨la⟩ := a
  obtain ⟨lb⟩ := b
  exact congrArg String.mk h2

/-- Pigeonhole for the probe: among the first `card + 1` candidates some path
is unused, because all candidate paths are pairwise distinct. -/
theorem probe_exists (fs : Finset String) (dir fn : String) :
    ∃ k, k < fs.card + 1 ∧ pathJoin dir (candidateName fn k) ∉ fs := by
  by_contra hc
  push_neg at hc
  have hinj : Set.InjOn (fun k => pathJoin dir (candidateName fn k))
      (Finset.range (fs.card + 1)) := by
    intro x _ y _ hxy
    exact candidateName_inj fn (pathJoin_inj hxy)
  have hsub : (Finset.range (fs.card + 1)).image (fun k => pathJoin dir (candidateName fn k))
      ⊆ fs := by
    intro p hp
    rw [Finset.mem_image] at hp
    obtain ⟨k, hk, rfl⟩ := hp
    exact hc k (Finset.mem_range.mp hk)
  have hcard := Finset.card_le_card hsub
  rw [Finset.card_image_of_injOn hinj, Finset.card_range] at hcard
  omega

/-- Whatever the probe loop returns was not an existing path. -/
theorem probeFrom_not_mem (fs : Finset String) (dir fn : String) :
    ∀ fuel k r, probeFrom fs dir fn k fuel = some r → pathJoin dir r ∉ fs := by
  intro fuel
  induction fuel with
  | zero => intro k r h; simp [probeFrom] at h
  | succ fuel ih =>
    intro k r h
    rw [probeFrom] at h
    by_cases hm : pathJoin dir (candidateName fn k) ∈ fs
    · simp only [hm, if_true] at h
      exact ih _ _ h
    · simp only [hm, if_false, Option.some.injEq] at h
      subst h
      exact hm

/-- The probe loop succeeds as soon as its fuel window contains an unused
candidate. -/
theorem probeFrom_isSome (fs : Finset String) (dir fn : String) :
    ∀ fuel k, (∃ j, k ≤ j ∧ j < k + fuel ∧ pathJoin dir (candidateName fn j) ∉ fs) →
      (probeFrom fs dir fn k fuel).isSome := by
  intro fuel
  induction fuel with
  | zero =>
    intro k h
    obtain ⟨j, h1, h2, _⟩ := h
    omega
  | succ fuel ih =>
    intro k h
    obtain ⟨j, hkj, hlt, hnot⟩ := h
    rw [probeFrom]
    by_cases hm : pathJoin dir (candidateName fn k) ∈ fs
    · simp only [hm, if_true]
      have hjk : j ≠ k := fun he => hnot (he ▸ hm)
      exact ih (k + 1) ⟨j, by omega, by omega, hnot⟩
    · simp [hm]

/-- The collision probe of `Attachment.save` terminates (within fuel bounded
by the directory population) and lands on a path that does not exist. -/
theorem probeSave_spec (fs : Finset String) (dir fn : String) :
    ∃ r, probeSave fs dir fn = some r ∧ pathJoin dir r ∉ fs := by
  obtain ⟨k, hk, hnot⟩ := probe_exists fs dir fn
  have hs := probeFrom_isSome fs dir fn (fs.card + 1) 0 ⟨k, by omega, by omega, hnot⟩
  rw [probeSave]
  cases hp : probeFrom fs dir fn 0 (fs.card + 1) with
  | none => rw [hp] at hs; simp at hs
  | some r => exact ⟨r, rfl, probeFrom_not_mem fs dir fn _ _ _ hp⟩

/-- Paths recorded by a sequential run of saves are pairwise distinct and all
fresh with respect to the initial file population. -/
theorem runSaves_inv :
    ∀ saves fs, ((runSaves saves fs).2).Nodup ∧ ∀ p ∈ (runSaves saves fs).2, p ∉ fs := by
  intro saves
  induction saves with
  | nil => intro fs; simp [runSaves]
  | cons hd rest ih =>
    intro fs
    obtain ⟨dir, fn⟩ := hd
    obtain ⟨r, hr, hnot⟩ := probeSave_spec fs dir fn
    rw [runSaves, hr]
    obtain ⟨ihn, ihmem⟩ := ih (insert (pathJoin dir r) fs)
    refine ⟨?_, ?_⟩
    · simp only [List.nodup_cons]
      refine ⟨fun hmem => ?_, ihn⟩
      exact ihmem _ hmem (Finset.mem_insert_self _ _)
    · intro p hp
      simp only [List.mem_cons] at hp
      rcases hp with rfl | hp
      · exact hnot
      · intro hpf
        exact ihmem p hp (Finset.mem_insert_of_mem hpf)

/-- Per-attachment statistics updates commute with bumping the failure
counter: `attStep` never reads or writes `failed_messages`. -/
theorem attStep_bump (sz : String → Option Nat) (p : String) (s : Stats) :
    attStep sz { s with failed_messages := s.failed_messages + 1 } p
      = { attStep sz s p with failed_messages := (attStep sz s p).failed_messages + 1 } := by
  cases s
  simp [attStep]

/-- Folded attachment updates commute with bumping the failure counter. -/
theorem foldl_attStep_bump (sz : String → Option Nat) :
    ∀ (ps : List String) (s : Stats),
      List.foldl (attStep sz) { s with failed_messages := s.failed_messages + 1 } ps
        = { List.foldl (attStep sz) s ps with
            failed_messages := (List.foldl (attStep sz) s ps).failed_messages + 1 } := by
  intro ps
  induction ps with
  | nil => intro s; rfl
  | cons p rest ih =>
    intro s
    rw [List.foldl_cons, List.foldl_cons, attStep_bump, ih]

/-- Success-path statistics updates commute with bumping the failure
counter. -/
theorem okStep_bump (sz : String → Option Nat) (d : MsgData) (s : Stats) :
    okStep sz { s with failed_messages := s.failed_messages + 1 } d
      = { okStep sz s d with failed_messages := (okStep sz s d).failed_messages + 1 } := by
  by_cases hsp : d.saved_paths = []
  · cases s
    simp [okStep, hsp]
  · cases s with
    | mk tm pm fm ta sa pp abt sn st et ds asb mwa mps =>
      simp only [okStep, hsp, if_false]
      exact foldl_attStep_bump sz d.saved_paths
        { total_messages := tm, processed_messages := pm + 1, failed_messages := fm,
          total_attachments := ta, saved_attachments := sa + d.saved_paths.length,
          post_processed := pp, attachments_by_type := abt,
          senders := bumpKey sn d.from_addr, start_time := st, end_time := et,
          duration_seconds := ds, attachments_size_bytes := asb,
          messages_with_attachments := mwa + 1, messages_processed_per_second := mps }

/-- One loop iteration commutes with bumping the failure counter. -/
theorem stepMsg_bump (sz : String → Option Nat) (m : Except PErr MsgData) (s : Stats) :
    stepMsg sz { s with failed_messages := s.failed_messages + 1 } m
      = { stepMsg sz s m with failed_messages := (stepMsg sz s m).failed_messages + 1 } := by
  cases m with
  | error e => cases s; simp [stepMsg]
  | ok d => simpa [stepMsg] using okStep_bump sz d s

/-- With no ceiling the whole loop commutes with bumping the failure
counter. -/
theorem procLoop_zero_bump (sz : String → Option Nat) :
    ∀ msgs i (s : Stats),
      procLoop 0 sz msgs i { s with failed_messages := s.failed_messages + 1 }
        = { procLoop 0 sz msgs i s with
            failed_messages := (procLoop 0 sz msgs i s).failed_messages + 1 } := by
  intro msgs
  induction msgs with
  | nil => intro i s; rfl
  | cons m rest ih =>
    intro i s
    simp only [procLoop, ne_eq, not_true_eq_false, false_and, if_false]
    rw [stepMsg_bump, ih]

/-- With no ceiling the loop ignores the enumeration index. -/
theorem procLoop_zero_idx (sz : String → Option Nat) :
    ∀ msgs i j (s : Stats), procLoop 0 sz msgs i s = procLoop 0 sz msgs j s := by
  intro msgs
  induction msgs with
  | nil => intro i j s; rfl
  | cons m rest ih =>
    intro i j s
    simp only [procLoop, ne_eq, not_true_eq_false, false_and, if_false]
    exact ih _ _ _

/-- No statistics update ever touches `total_attachments`: per-attachment
step. -/
theorem attStep_total (sz : String → Option Nat) (s : Stats) (p : String) :
    (attStep sz s p).total_attachments = s.total_attachments := by
  cases s; rfl

/-- No statistics update ever touches `total_attachments`: attachment fold. -/
theorem foldl_attStep_total (sz : String → Option Nat) :
    ∀ (ps : List String) (s : Stats),
      (List.foldl (attStep sz) s ps).total_attachments = s.total_attachments := by
  intro ps
  induction ps with
  | nil => intro s; rfl
  | cons p rest ih =>
    intro s
    rw [List.foldl_cons, ih, attStep_total]

/-- No statistics update ever touches `total_attachments`: loop iteration. -/
theorem stepMsg_total (sz : String → Option Nat) (s : Stats) (m : Except PErr MsgData) :
    (stepMsg sz s m).total_attachments = s.total_attachments := by
  cases m with
  | error e => cases s; rfl
  | ok d =>
    by_cases hsp : d.saved_paths = []
    · cases s; simp [stepMsg, okStep, hsp]
    · cases s
      simp only [stepMsg, okStep, hsp, if_false]
      rw [foldl_attStep_total]

/-- No statistics update ever touches `total_attachments`: whole loop. -/
theorem procLoop_total (maxM : Nat) (sz : String → Option Nat) :
    ∀ msgs i (s : Stats), (procLoop maxM sz msgs i s).total_attachments = s.total_attachments := by
  intro msgs
  induction msgs with
  | nil => intro i s; rfl
  | cons m rest ih =>
    intro i s
    rw [procLoop]
    by_cases hb : maxM ≠ 0 ∧ maxM ≤ i
    · simp [hb]
    · simp only [hb, if_false]
      rw [ih, stepMsg_total]

/-- Statistics finalisation never touches `total_attachments`. -/
theorem finalizeStats_total (s : Stats) (postP : Bool) (ppCount t1 : Nat) :
    (finalizeStats s postP ppCount t1).total_attachments = s.total_attachments := by
  cases s
  simp only [finalizeStats]
  split <;> split <;> rfl

/-- Assigned names of concatenated skeletons split with a shifted offset. -/
theorem specAssignNames_append :
    ∀ (xs ys : List (Option String)) (ofs : Nat),
      specAssignNames (xs ++ ys) ofs
        = specAssignNames xs ofs ++ specAssignNames ys (ofs + xs.length) := by
  intro xs
  induction xs with
  | nil => intro ys ofs; simp [specAssignNames]
  | cons o rest ih =>
    intro ys ofs
    simp only [List.cons_append, specAssignNames, List.length_cons]
    congr 1
    have h : ofs + 1 + rest.length = ofs + (rest.length + 1) := by omega
    rw [← h]
    exact ih ys (ofs + 1)

/-- Assigned names are as many as skeleton entries. -/
theorem specAssignNames_length :
    ∀ (xs : List (Option String)) (ofs : Nat), (specAssignNames xs ofs).length = xs.length := by
  intro xs
  induction xs with
  | nil => intro ofs; rfl
  | cons o rest ih => intro ofs; simp [specAssignNames, ih]

/-- Leaf behaviour of the extractor: the appended attachment records of a
leaf are exactly its captured skeleton, named by declared filename or by the
running-count synthetic name. -/
theorem leafStep_names (dec : String → List Nat → String) (ct : String)
    (disp fn cs : Option String) (pl : Option (List Nat)) (acc : Acc) :
    ∃ new, (leafStep dec ct disp fn cs pl acc).attachments = acc.attachments ++ new ∧
      new.map (·.filename)
        = specAssignNames (specCollectNames (.leaf ct disp fn cs pl)) acc.attachments.length := by
  rcases disp with _ | dv
  · refine ⟨[], ?_, by simp [specCollectNames, specAssignNames]⟩
    simp only [leafStep]
    rcases pl with _ | l
    · simp
    · rcases l with _ | ⟨b, bs⟩
      · simp
      · split_ifs <;> simp
  · by_cases hdv : pyLowerS dv = "attachment" ∨ pyLowerS dv = "inline"
    · rcases pl with _ | l
      · refine ⟨[], ?_, ?_⟩ <;> simp [leafStep, hdv, specCollectNames, specAssignNames]
      · rcases l with _ | ⟨b, bs⟩
        · refine ⟨[], ?_, ?_⟩ <;> simp [leafStep, hdv, specCollectNames, specAssignNames]
        · by_cases hfn : truthyS fn = true
          · refine ⟨[AttRec.mk (fn.getD "") ct dv (b :: bs) (b :: bs).length], ?_, ?_⟩
            · simp [leafStep, hdv, hfn]
            · simp [specCollectNames, hdv, hfn, specAssignNames]
          · rw [Bool.not_eq_true] at hfn
            refine ⟨[AttRec.mk ("attachment_" ++ decStr (acc.attachments.length + 1))
                ct dv (b :: bs) (b :: bs).length], ?_, ?_⟩
            · simp [leafStep, hdv, hfn]
            · simp [specCollectNames, hdv, hfn, specAssignNames]
    · refine ⟨[], ?_, by simp [specCollectNames, hdv, specAssignNames]⟩
      simp only [leafStep]
      rw [if_neg hdv]
      rcases pl with _ | l
      · simp
      · rcases l with _ | ⟨b, bs⟩
        · simp
        · split_ifs <;> simp

mutual

/-- Attachment records appended by one part are exactly the captured leaves
of that part, named by their declared filename or by `attachment_{k}` with
`k` continuing the running count of attachments already accumulated. -/
theorem extractPart_names (dec : String → List Nat → String) (p : Part) (acc : Acc) :
    ∃ new, (extractPart dec p acc).attachments = acc.attachments ++ new ∧
      new.map (·.filename)
        = specAssignNames (specCollectNames p) acc.attachments.length := by
  match p with
  | .leaf ct disp fn cs pl =>
    have h := leafStep_names dec ct disp fn cs pl acc
    simpa [extractPart] using h
  | .multipart ps =>
    have h := extractParts_names dec ps acc
    simpa [extractPart, specCollectNames] using h

/-- List version of `extractPart_names`, children processed left to right. -/
theorem extractParts_names (dec : String → List Nat → String) (ps : List Part) (acc : Acc) :
    ∃ new, (extractParts dec ps acc).attachments = acc.attachments ++ new ∧
      new.map (·.filename)
        = specAssignNames (specCollectNamesList ps) acc.attachments.length := by
  match ps with
  | [] => exact ⟨[], by simp [extractParts], by simp [specCollectNamesList, specAssignNames]⟩
  | p :: rest =>
    obtain ⟨n1, h1, hn1⟩ := extractPart_names dec p acc
    obtain ⟨n2, h2, hn2⟩ := extractParts_names dec rest (extractPart dec p acc)
    refine ⟨n1 ++ n2, ?_, ?_⟩
    · have hstep : extractParts dec (p :: rest) acc
          = extractParts dec rest (extractPart dec p acc) := by
        simp [extractParts]
      rw [hstep, h2, h1, List.append_assoc]
    · have hlen : n1.length = (specCollectNames p).length := by
        have hc := congrArg List.length hn1
        simpa [specAssignNames_length] using hc
      have hofs : (extractPart dec p acc).attachments.length
          = acc.attachments.length + (specCollectNames p).length := by
        rw [h1]; simp [hlen]
      have hcoll : specCollectNamesList (p :: rest)
          = specCollectNames p ++ specCollectNamesList rest := by
        simp [specCollectNamesList]
      rw [List.map_append, hn1, hn2, hofs, hcoll, specAssignNames_append]

end

/-- Helper for C2: `save_attachments` never reads the `post_process` flag;
its behaviour is a function of the base directory alone. -/
theorem saveLoop_base_only (h h' : HandlerCfg) (hb : h.base_dir = h'.base_dir)
    (m : EmailMsg) (rands : Nat → Nat) :
    ∀ (l : List Attachment) (i : Nat) (fs : Finset String),
      saveLoop h m rands l i fs = saveLoop h' m rands l i fs := by
  intro l
  induction l with
  | nil => intro i fs; rfl
  | cons a rest ih =>
    intro i fs
    simp only [saveLoop]
    rw [show get_attachment_dir h = get_attachment_dir h' by
      funext x; rw [get_attachment_dir, get_attachment_dir, hb]]
    split <;> rename_i heq
    · simp only [heq, ih]
    · simp only [heq, ih]

/-- Helper for C9: the attachment list `_extract_content` returns for a whole
message carries exactly the spec-side names, counted from zero. -/
theorem extract_content_names (dec : String → List Nat → String) (m : Part) :
    ((extract_content dec m).2.2).map (·.filename)
      = specAssignNames (specCollectNames m) 0 := by
  cases m with
  | leaf ct disp fn cs pl =>
    obtain ⟨new, h1, hn1⟩ := leafStep_names dec ct disp fn cs pl ⟨[], [], []⟩
    rw [extract_content]
    simp only []
    rw [h1]
    simpa using hn1
  | multipart ps =>
    obtain ⟨new, h1, hn1⟩ := extractParts_names dec ps ⟨[], [], []⟩
    rw [extract_content]
    simp only []
    rw [h1]
    have hc : specCollectNames (.multipart ps) = specCollectNamesList ps := by
      simp [specCollectNames]
    rw [hc]
    simpa using hn1

/-- C1: when opening the mailbox container fails, `MboxProcessor.process`
still runs statistics finalization (end time and duration are set), but the
`return stats` inside the `finally` block discards the re-raised exception,
so `process` returns the statistics normally and the CLI exits 0 — the error
does not propagate as the claim states. -/
theorem claim_C1_open_error_swallowed_after_finalization :
    processRun (.error PErr.ioError) 0 false 0 (fun _ => none) 5 9
      = .ok (finalizeStats (initStats 5) false 0 9)
    ∧ (finalizeStats (initStats 5) false 0 9).end_time = some 9
    ∧ (finalizeStats (initStats 5) false 0 9).duration_seconds = some 4
    ∧ mainExit (processRun (.error PErr.ioError) 0 false 0 (fun _ => none) 5 9) = 0 :=
  ⟨rfl, rfl, rfl, rfl⟩

/-- C2: with deferred detection enabled, saving an attachment whose declared
filename `data` has no plausible extension (its own `has_extension` is false)
still writes into the sender bucket directory, not the temp staging area, and
`save_attachments` is entirely independent of the `post_process` flag. -/
theorem claim_C2_extensionless_saved_to_bucket :
    (save_attachments ⟨"attachments", true, false⟩ extLessMsg ∅ (fun _ => 12345)).2
      = ["attachments/jane_example_com/2024-03-01_jane_example_com_12345."]
    ∧ extLessAtt.has_extension = false
    ∧ ∀ (b : String) (kt : Bool) (m : EmailMsg) (fs : Finset String) (r : Nat → Nat),
        save_attachments ⟨b, true, kt⟩ m fs r = save_attachments ⟨b, false, kt⟩ m fs r := by
  refine ⟨by decide, by decide, ?_⟩
  intro b kt m fs r
  rw [save_attachments, save_attachments]
  exact saveLoop_base_only ⟨b, true, kt⟩ ⟨b, false, kt⟩ rfl m r m.attachments 0 fs

/-- C3: a non-multipart message whose single `text/plain` leaf has no
disposition and a non-empty payload comes back with the `"[No content]"`
placeholder rather than the decoded text: the leaf return path of
`_extract_content` discards the accumulated text parts. -/
theorem claim_C3_single_leaf_plaintext_replaced :
    process_message asciiDec id false plainLeaf
      = { text_content := some "[No content]", html_content := none, attachments := [] }
    ∧ asciiDec "utf-8" [104, 101, 108, 108, 111] = "hello" :=
  ⟨rfl, rfl⟩

/-- C4: the collision probe loop of `Attachment.save` terminates and lands on
a path that did not exist before the write, and in a sequential run the
recorded final paths are pairwise distinct. -/
theorem claim_C4_collision_probe_unique :
    (∀ (fs : Finset String) (dir fn : String),
        ∃ r, probeSave fs dir fn = some r ∧ pathJoin dir r ∉ fs)
    ∧ ∀ (saves : List (String × String)) (fs : Finset String),
        ((runSaves saves fs).2).Nodup :=
  ⟨probeSave_spec, fun saves fs => (runSaves_inv saves fs).1⟩

/-- C4 witness: the probe renames `a.txt` to `a_1.txt` when `d/a.txt` exists,
and the theorem applies to this concrete directory state. -/
theorem claim_C4_witness :
    probeSave {"d/a.txt"} "d" "a.txt" = some "a_1.txt"
    ∧ ∃ r, probeSave {"d/a.txt"} "d" "a.txt" = some r
        ∧ pathJoin "d" r ∉ ({"d/a.txt"} : Finset String) :=
  ⟨by decide, claim_C4_collision_probe_unique.1 {"d/a.txt"} "d" "a.txt"⟩

/-- C5: a message whose processing raises contributes exactly one to the
failure counter and nothing else: the loop's result on
`pre ++ [failing] ++ post` equals the result on `pre ++ post` with
`failed_messages` incremented, so the processed count is untouched and every
remaining message is still processed identically. -/
theorem claim_C5_failure_counted_loop_continues :
    ∀ (sz : String → Option Nat) (pre post : List (Except PErr MsgData)) (e : PErr)
      (i : Nat) (s : Stats),
      procLoop 0 sz (pre ++ .error e :: post) i s
        = { procLoop 0 sz (pre ++ post) i s with
            failed_messages := (procLoop 0 sz (pre ++ post) i s).failed_messages + 1 } := by
  intro sz pre
  induction pre with
  | nil =>
    intro post e i s
    simp only [List.nil_append, procLoop, ne_eq, not_true_eq_false, false_and, if_false,
      stepMsg]
    rw [procLoop_zero_bump]
    rw [procLoop_zero_idx sz post (i + 1) i s]
  | cons m pre ih =>
    intro post e i s
    simp only [List.cons_append, procLoop, ne_eq, not_true_eq_false, false_and, if_false]
    exact ih post e (i + 1) (stepMsg sz s m)

/-- C6 counterexample: an attachment with `message_id` unset but date and
sender set derives a name and saves without raising, so an unset owning
message id does not make `safe_filename` or `save` fail. -/
theorem claim_C6_counterexample :
    janeAtt.message_id = none
    ∧ janeAtt.safe_filenameE 12345 = .ok "2024-03-01_jane_example_com_12345.pdf"
    ∧ janeAtt.saveE "d" ∅ 12345 = .ok "d/2024-03-01_jane_example_com_12345.pdf" :=
  ⟨rfl, rfl, rfl⟩

/-- C6 amended: deriving the file name or saving raises `ValueError` whenever
`email_date` or `sender_email` is unset (None, or the empty string for the
sender); the owning message id is never checked. -/
theorem claim_C6_unset_date_or_sender_raises (a : Attachment) (r : Nat) (dir : String)
    (fs : Finset String)
    (h : a.email_date = none ∨ a.sender_email = none ∨ a.sender_email = some "") :
    a.safe_filenameE r = .error "email_date and sender_email must be set"
    ∧ a.saveE dir fs r = .error "email_date and sender_email must be set" := by
  have hf : a.safe_filenameE r = .error "email_date and sender_email must be set" := by
    rcases h with h | h | h
    · simp [Attachment.safe_filenameE, h]
    · cases hd : a.email_date <;> simp [Attachment.safe_filenameE, hd, h]
    · cases hd : a.email_date <;> simp [Attachment.safe_filenameE, hd, h]
  exact ⟨hf, by simp [Attachment.saveE, hf]⟩

/-- C6 witness: an attachment with the date unset is rejected by both
`safe_filename` and `save`. -/
theorem claim_C6_witness :
    ({ janeAtt with email_date := none } : Attachment).safe_filenameE 1
       = .error "email_date and sender_email must be set"
    ∧ ({ janeAtt with email_date := none } : Attachment).saveE "d" ∅ 1
       = .error "email_date and sender_email must be set" :=
  claim_C6_unset_date_or_sender_raises { janeAtt with email_date := none } 1 "d" ∅
    (Or.inl rfl)

/-- C7 counterexample: for a declared filename with no suffix the derived
name carries a trailing dot (`'.' + extension` is appended even when the
extension is empty), so it is not the claimed bare
`{date}_{sender}_{random}`. -/
theorem claim_C7_counterexample :
    readmeAtt.safe_filenameE 12345 = .ok "2024-03-01_jane_example_com_12345."
    ∧ ("2024-03-01_jane_example_com_12345." : String)
        ≠ "2024-03-01_jane_example_com_12345" :=
  ⟨rfl, by decide⟩

/-- C7 amended: for every attachment with message context set whose declared
filename has no suffix, the derived file name is
`{YYYY-MM-DD}_{sanitized-sender}_{random}` followed by a trailing dot — the
empty extension still contributes its dot separator. -/
theorem claim_C7_no_suffix_trailing_dot (a : Attachment) (d : PyDate) (s : String) (r : Nat)
    (hd : a.email_date = some d) (hs : a.sender_email = some s) (hne : s ≠ "")
    (hext : a.extension = "") :
    a.safe_filenameE r
      = .ok ⟨(fmtDate d).data ++ '_' :: sanitizeSenderL s.data ++ '_' :: decChars r ++ ['.']⟩ := by
  simp [Attachment.safe_filenameE, hd, hs, hne, safe_filename_core, extWithDotL, hext]

/-- C7 witness: the trailing-dot format theorem applied to the concrete
suffix-less attachment. -/
theorem claim_C7_witness :
    readmeAtt.extension = ""
    ∧ readmeAtt.safe_filenameE 12345
        = .ok ⟨(fmtDate ⟨2024, 3, 1⟩).data ++ '_' :: sanitizeSenderL "jane@example.com".data
            ++ '_' :: decChars 12345 ++ ['.']⟩ :=
  ⟨rfl, claim_C7_no_suffix_trailing_dot readmeAtt ⟨2024, 3, 1⟩ "jane@example.com" 12345
    rfl rfl (by decide) rfl⟩

/-- C8 counterexample: constructing a configuration with ceiling −5 and
validating it raises nothing — `validate` returns successfully because the
constructor already clamped the ceiling to 0. -/
theorem claim_C8_counterexample :
    (mkConfig true (some (-5))).validateE = .ok ()
    ∧ (mkConfig true (some (-5))).max_messages = 0 :=
  ⟨rfl, rfl⟩

/-- C8 amended: a negative message ceiling is clamped to 0 (unlimited) during
construction, so validation reports no configuration error for it and the run
exits 0 when processing succeeds; `validate`'s negative check is unreachable
through the constructor. -/
theorem claim_C8_negative_ceiling_clamped (v : Int) (hv : v < 0) :
    (mkConfig true (some v)).max_messages = 0
    ∧ (mkConfig true (some v)).validateE = .ok ()
    ∧ ∀ s : Stats, cliExit (mkConfig true (some v)) (.ok s) = 0 := by
  have hm : (mkConfig true (some v)).max_messages = 0 := by
    simp only [mkConfig]
    rw [if_neg (by omega : ¬ v = 0)]
    exact max_eq_left hv.le
  have hval : (mkConfig true (some v)).validateE = .ok () := by
    simp only [ConfigM.validateE, hm]
    simp [mkConfig]
  refine ⟨hm, hval, ?_⟩
  intro s
  simp [cliExit, hval, mainExit]

/-- C8 witness: the clamping theorem applied at ceiling −5. -/
theorem claim_C8_witness :
    (mkConfig true (some (-5))).max_messages = 0
    ∧ (mkConfig true (some (-5))).validateE = .ok ()
    ∧ ∀ s : Stats, cliExit (mkConfig true (some (-5))) (.ok s) = 0 :=
  claim_C8_negative_ceiling_clamped (-5) (by decide)

/-- C9: for every message, the attachment names `process_message` produces
are the declared filenames where present and `attachment_{k}` otherwise,
where `k` is one plus the number of attachments already captured for this
message — a counter that starts from zero for each message, not a global
one. -/
theorem claim_C9_synthetic_names_per_message (dec : String → List Nat → String)
    (h2t : String → String) (keep_html : Bool) (m : Part) :
    (process_message dec h2t keep_html m).attachments.map (·.filename)
      = specAssignNames (specCollectNames m) 0 := by
  have h := extract_content_names dec m
  simpa [process_message] using h

/-- C10: the statistics dictionary `process` returns always carries
`total_attachments = 0`: the field is initialized to zero and no code path
updates it. -/
theorem claim_C10_total_attachments_zero
    (openResult : Except PErr (List (Except PErr MsgData))) (maxM : Nat) (postP : Bool)
    (ppCount : Nat) (sz : String → Option Nat) (t0 t1 : Nat) :
    ∃ s, processRun openResult maxM postP ppCount sz t0 t1 = .ok s
      ∧ s.total_attachments = 0 := by
  refine ⟨_, rfl, ?_⟩
  rw [finalizeStats_total]
  cases openResult with
  | error e => rfl
  | ok msgs =>
    have h := procLoop_total maxM sz msgs 0
      { initStats t0 with total_messages := msgs.length }
    simpa [initStats] using h

end Mbox
